import Mathlib

/-!
Verification of the py-chat-websocket-demo chat core.

This file gives a shallow embedding of the repository's code:
`app/chat.py` (the `ConnectionManager` registry and the
`websocket_endpoint` session handler), `app/services.py` (the
user / room / membership persistence helpers) and the REST
`join_room` handler of `app/rooms.py`.

Python dictionaries are modelled as association lists keeping the
source's insertion-order semantics: updating an existing key keeps
its position, inserting a new key appends at the end, deleting
removes the binding.  Live WebSocket connection handles are modelled
as opaque natural numbers.
-/

namespace ChatDemo

/-- A live connection handle (`WebSocket` object), opaque to the registry. -/
abbrev Handle := Nat

/-- The inner dictionary of one room: user id to connection handle. -/
abbrev Inner := List (String × Handle)

/-- `ConnectionManager.active_connections : Dict[str, Dict[str, WebSocket]]`. -/
abbrev Registry := List (String × Inner)

/-- Python `d[k]` read (as `Option`): first binding with key `k`. -/
def dictGet (k : String) : List (String × α) → Option α
  | [] => none
  | (k', v) :: rest => if k' = k then some v else dictGet k rest

/-- Python `d[k] = v`: update the existing binding in place, else append. -/
def dictSet (k : String) (v : α) : List (String × α) → List (String × α)
  | [] => [(k, v)]
  | (k', v') :: rest => if k' = k then (k, v) :: rest else (k', v') :: dictSet k v rest

/-- Python `del d[k]`: remove the first binding with key `k`. -/
def dictDel (k : String) : List (String × α) → List (String × α)
  | [] => []
  | (k', v') :: rest => if k' = k then rest else (k', v') :: dictDel k rest

/-- `ConnectionManager.connect` (after the transport `accept`): if the room
is absent start an empty inner dict, then store the handle under the user. -/
def connect (reg : Registry) (room_id user_id : String) (ws : Handle) : Registry :=
  let inner :=
    match dictGet room_id reg with
    | none => ([] : Inner)
    | some d => d
  dictSet room_id (dictSet user_id ws inner) reg

/-- `ConnectionManager.disconnect`: remove the user's entry when both the
room and the user are present; prune the room when its inner dict empties. -/
def disconnect (reg : Registry) (room_id user_id : String) : Registry :=
  match dictGet room_id reg with
  | none => reg
  | some inner =>
    if (dictGet user_id inner).isSome then
      let inner' := dictDel user_id inner
      if inner' = [] then dictDel room_id reg
      else dictSet room_id inner' reg
    else reg

/-- `ConnectionManager.broadcast_to_user`: the handle the payload is sent to,
`none` when room or user is absent (silent no-op in the source). -/
def broadcast_to_user (reg : Registry) (user_id room_id : String) : Option Handle :=
  match dictGet room_id reg with
  | none => none
  | some inner => dictGet user_id inner

/-- The loop guard `if exclude_user_id and user_id == exclude_user_id`:
Python truthiness makes `None` and the empty string both skip nobody. -/
def excludeMatches (exclude_user_id : Option String) (user_id : String) : Bool :=
  match exclude_user_id with
  | none => false
  | some s => !(s == "") && (user_id == s)

/-- The `for user_id, connection in ...items()` send loop of
`broadcast_to_room`, with a failure model: `fails h = true` means
`connection.send_text` raises on handle `h`.  Returns the recipients
attempted, in iteration order, and whether an exception escaped the loop
(the source has no `try` around the send, so the first failure aborts). -/
def sendLoop (exclude_user_id : Option String) (fails : Handle → Bool) :
    Inner → List (String × Handle) × Bool
  | [] => ([], false)
  | (u, h) :: rest =>
    if excludeMatches exclude_user_id u then sendLoop exclude_user_id fails rest
    else if fails h then ([(u, h)], true)
    else
      let r := sendLoop exclude_user_id fails rest
      ((u, h) :: r.1, r.2)

/-- `ConnectionManager.broadcast_to_room` under the failure model:
attempted recipients in iteration order, and whether a send raised. -/
def broadcast_to_room_run (reg : Registry) (room_id : String)
    (exclude_user_id : Option String) (fails : Handle → Bool) :
    List (String × Handle) × Bool :=
  match dictGet room_id reg with
  | none => ([], false)
  | some inner => sendLoop exclude_user_id fails inner

/-- `ConnectionManager.broadcast_to_room` when no send fails: the list of
recipients the payload is delivered to, in iteration order. -/
def broadcast_to_room (reg : Registry) (room_id : String)
    (exclude_user_id : Option String) : List (String × Handle) :=
  (broadcast_to_room_run reg room_id exclude_user_id (fun _ => false)).1

/-- `ConnectionManager.get_users_in_room`: the room's user keys, or `[]`. -/
def get_users_in_room (reg : Registry) (room_id : String) : List String :=
  match dictGet room_id reg with
  | some inner => inner.map Prod.fst
  | none => []

/-- All handles stored anywhere in the registry. -/
def registryHandles (reg : Registry) : List Handle :=
  (reg.map (fun p => p.2.map Prod.snd)).flatten

/-- One registry operation, for reasoning about operation sequences. -/
inductive RegOp
  | conn (room_id user_id : String) (ws : Handle)
  | disc (room_id user_id : String)
deriving DecidableEq

/-- Apply one operation to the registry. -/
def applyOp (reg : Registry) : RegOp → Registry
  | .conn r u ws => connect reg r u ws
  | .disc r u => disconnect reg r u

/-- Apply a sequence of operations, left to right. -/
def applyOps (reg : Registry) (ops : List RegOp) : Registry :=
  ops.foldl applyOp reg

/-- Specification-side step: one operation's effect on whether the given
pair counts as connected. -/
def specStep (b : Bool) (op : RegOp) (room_id user_id : String) : Bool :=
  match op with
  | .conn r u _ => if r == room_id && u == user_id then true else b
  | .disc r u => if r == room_id && u == user_id then false else b

/-- Specification-side reference, following the spec's words: a user is
currently connected in a room after a sequence of operations starting from
`init` exactly when the last connect for the pair is not followed by a
disconnect for the pair. -/
def specConnectedFrom (init : Bool) (ops : List RegOp) (room_id user_id : String) : Bool :=
  ops.foldl (fun b op => specStep b op room_id user_id) init

/-- Specification-side reference from the empty registry. -/
def specConnected (ops : List RegOp) (room_id user_id : String) : Bool :=
  specConnectedFrom false ops room_id user_id

/-! ## Persistence model (`app/services.py`, `app/models.py`)

Only the columns the verified code paths read are modelled. -/

/-- A row of the `users` table (the fields the chat path reads). -/
structure UserRec where
  id : Nat
  username : String
  email : String
  is_active : Bool
deriving DecidableEq

/-- A row of the `rooms` table (the fields the chat and join paths read). -/
structure RoomRec where
  id : Nat
  name : String
  is_public : Bool
  max_users : Nat
  is_active : Bool
  creator_id : Nat
deriving DecidableEq

/-- A row of the `room_memberships` table. -/
structure MembershipRec where
  id : Nat
  user_id : Nat
  room_id : Nat
  is_moderator : Bool
deriving DecidableEq

/-- The database: three tables plus the autoincrement counters. -/
structure Db where
  users : List UserRec
  rooms : List RoomRec
  memberships : List MembershipRec
  nextUserId : Nat
  nextRoomId : Nat
  nextMembershipId : Nat
deriving DecidableEq

/-- `auth.get_user_by_username`: first user row with the given username. -/
def get_user_by_username (db : Db) (username : String) : Option UserRec :=
  db.users.find? (fun u => u.username == username)

/-- `services.get_room_by_name`: first active room row with the given name. -/
def get_room_by_name (db : Db) (room_name : String) : Option RoomRec :=
  db.rooms.find? (fun r => r.name == room_name && r.is_active)

/-- `services.get_room_by_id`: first active room row with the given id. -/
def get_room_by_id (db : Db) (room_id : Nat) : Option RoomRec :=
  db.rooms.find? (fun r => r.id == room_id && r.is_active)

/-- `services.get_room_user_count`: memberships recorded for the room. -/
def get_room_user_count (db : Db) (room_id : Nat) : Nat :=
  (db.memberships.filter (fun m => m.room_id == room_id)).length

/-- `services.create_user`: insert a user row (hashing is out of model). -/
def create_user (db : Db) (username email : String) : Db × UserRec :=
  let u : UserRec := ⟨db.nextUserId, username, email, true⟩
  ({ db with users := db.users ++ [u], nextUserId := db.nextUserId + 1 }, u)

/-- `services.add_user_to_room`: return the existing membership when the
pair is already a member, otherwise insert a new membership row. -/
def add_user_to_room (db : Db) (user_id room_id : Nat) (is_moderator : Bool) :
    Db × MembershipRec :=
  match db.memberships.find? (fun m => m.user_id == user_id && m.room_id == room_id) with
  | some existing => (db, existing)
  | none =>
    let m : MembershipRec := ⟨db.nextMembershipId, user_id, room_id, is_moderator⟩
    ({ db with memberships := db.memberships ++ [m],
               nextMembershipId := db.nextMembershipId + 1 }, m)

/-- `services.create_room`: insert a room row, then add the creator as a
moderator member. -/
def create_room (db : Db) (name : String) (is_public : Bool) (max_users : Nat)
    (creator_id : Nat) : Db × RoomRec :=
  let r : RoomRec := ⟨db.nextRoomId, name, is_public, max_users, true, creator_id⟩
  let db1 := { db with rooms := db.rooms ++ [r], nextRoomId := db.nextRoomId + 1 }
  let db2 := (add_user_to_room db1 creator_id r.id true).1
  (db2, r)

/-- The outcome of the REST `POST /rooms/{room_id}/join` handler. -/
inductive JoinResult
  | notFound
  | atCapacity
  | joined (membership_id : Nat)
deriving DecidableEq

/-- `rooms.join_room`: 404 when the room is absent, 400 when the current
member count has reached `max_users`, else record the membership. -/
def join_room (db : Db) (room_id : Nat) (current_user_id : Nat) : Db × JoinResult :=
  match get_room_by_id db room_id with
  | none => (db, .notFound)
  | some room =>
    if get_room_user_count db room_id ≥ room.max_users then (db, .atCapacity)
    else
      let r := add_user_to_room db current_user_id room_id false
      (r.1, .joined r.2.id)

/-! ## Session handler model (`websocket_endpoint` in `app/chat.py`) -/

/-- `status.WS_1008_POLICY_VIOLATION`. -/
def WS_1008 : Nat := 1008

/-- A wire payload built by the endpoint (`json.dumps` of the dicts). -/
inductive Payload
  | system (message : String) (users : List String)
  | chat (sender message : String)
deriving DecidableEq, BEq

/-- One delivery: recipient user key, its handle, and the payload sent. -/
structure Delivery where
  user : String
  ws : Handle
  payload : Payload
deriving DecidableEq, BEq

/-- One inbound transport event while the session is active: a received
JSON object (its key/value pairs) or the transport disconnect signal. -/
inductive InEvent
  | msg (fields : List (String × String))
  | disc
deriving DecidableEq

/-- Whether `needle` occurs as a contiguous run inside the character list
(Python's `needle in haystack` on strings). -/
def containsSub (needle : List Char) : List Char → Bool
  | [] => needle.isEmpty
  | c :: t => needle.isPrefixOf (c :: t) || containsSub needle t

/-- Python `needle in haystack` for strings. -/
def pyIn (needle haystack : String) : Bool :=
  containsSub needle.toList haystack.toList

/-- The hardcoded placeholder names of the auto-provisioning check. -/
def allow_list : List String :=
  ["testuser", "user1", "user2", "alice", "bob", "carol", "dave"]

/-- The deliveries one `broadcast_to_room` call performs (no send failure). -/
def broadcastDeliver (reg : Registry) (room_id : String) (payload : Payload)
    (exclude_user_id : Option String) : List Delivery :=
  (broadcast_to_room reg room_id exclude_user_id).map (fun p => ⟨p.1, p.2, payload⟩)

/-- The `while True: data = await websocket.receive_json() ...` read loop.
Each well-formed message (`data['message']` present) is echoed to the whole
room as a `chat` payload; a `WebSocketDisconnect` or a message missing the
`'message'` key (a `KeyError`) exits the loop.  Returns the chat deliveries
and whether the loop exited (i.e. the session ended within the trace). -/
def readChatBroadcasts (reg : Registry) (room_id sender : String) :
    List InEvent → List Delivery × Bool
  | [] => ([], false)
  | .disc :: _ => ([], true)
  | .msg fields :: rest =>
    match dictGet "message" fields with
    | none => ([], true)
    | some m =>
      let ds := broadcastDeliver reg room_id (.chat sender m) none
      let r := readChatBroadcasts reg room_id sender rest
      (ds ++ r.1, r.2)

/-- The observable outcome of one run of `websocket_endpoint`. -/
structure EndpointResult where
  db : Db
  reg : Registry
  deliveries : List Delivery
  closeCode : Option Nat
  reachedActive : Bool
  loopEnded : Bool
deriving DecidableEq

/-- The endpoint body after user resolution: resolve or create the room,
record membership, register the connection, broadcast the join message,
run the read loop, and on loop exit run the `finally` cleanup (deregister
then broadcast the leave message to the remaining members). -/
def wsProceed (db : Db) (reg : Registry) (room_id user_id : String)
    (user : UserRec) (ws : Handle) (events : List InEvent) : EndpointResult :=
  let roomStep :=
    match get_room_by_name db room_id with
    | some r => (db, r)
    | none => create_room db room_id true 100 user.id
  let db1 := roomStep.1
  let room := roomStep.2
  let db2 := (add_user_to_room db1 user.id room.id false).1
  let reg1 := connect reg room_id user_id ws
  let joinDs := broadcastDeliver reg1 room_id
    (.system (user_id ++ " has joined the room.") (get_users_in_room reg1 room_id)) none
  let loopRes := readChatBroadcasts reg1 room_id user_id events
  if loopRes.2 then
    let reg2 := disconnect reg1 room_id user_id
    let leaveDs := broadcastDeliver reg2 room_id
      (.system (user_id ++ " has left the room.") (get_users_in_room reg2 room_id)) none
    ⟨db2, reg2, joinDs ++ loopRes.1 ++ leaveDs, none, true, true⟩
  else
    ⟨db2, reg1, joinDs ++ loopRes.1, none, true, false⟩

/-- `websocket_endpoint` of `app/chat.py`: `token` is the username the
dependency `get_user_from_token` resolved from the JWT.  Reject on path
user mismatch; resolve the user, auto-provisioning only when some
placeholder name occurs in `user_id` (Python substring `in`); then run
the admitted session. -/
def websocket_endpoint (db : Db) (reg : Registry) (room_id user_id token : String)
    (ws : Handle) (events : List InEvent) : EndpointResult :=
  if user_id ≠ token then ⟨db, reg, [], some WS_1008, false, false⟩
  else
    match get_user_by_username db user_id with
    | some user => wsProceed db reg room_id user_id user ws events
    | none =>
      if allow_list.any (fun test_name => pyIn test_name user_id) then
        let r := create_user db user_id (user_id ++ "@test.com")
        wsProceed r.1 reg room_id user_id r.2 ws events
      else ⟨db, reg, [], some WS_1008, false, false⟩

/-! ## Association-list lemmas -/

theorem dictGet_set_self (k : String) (v : α) (d : List (String × α)) :
    dictGet k (dictSet k v d) = some v := by
  induction d with
  | nil => simp [dictGet, dictSet]
  | cons p rest ih =>
    by_cases h : p.1 = k
    · simp [dictSet, dictGet, h]
    · simp [dictSet, dictGet, h, ih]

theorem dictGet_set_ne (k k' : String) (v : α) (d : List (String × α)) (h : k' ≠ k) :
    dictGet k' (dictSet k v d) = dictGet k' d := by
  induction d with
  | nil => simp [dictGet, dictSet, h.symm]
  | cons p rest ih =>
    by_cases hp : p.1 = k
    · simp [dictSet, dictGet, hp, h.symm]
    · by_cases hp' : p.1 = k'
      · simp [dictSet, dictGet, hp, hp', h]
      · simp [dictSet, dictGet, hp, hp', ih]

theorem dictGet_del_ne (k k' : String) (d : List (String × α)) (h : k' ≠ k) :
    dictGet k' (dictDel k d) = dictGet k' d := by
  induction d with
  | nil => simp [dictDel]
  | cons p rest ih =>
    by_cases hp : p.1 = k
    · have hne : p.1 ≠ k' := by rw [hp]; exact h.symm
      simp [dictDel, dictGet, hp, hne, h.symm]
    · by_cases hp' : p.1 = k'
      · simp [dictDel, dictGet, hp, hp', h]
      · simp [dictDel, dictGet, hp, hp', ih]

theorem dictDel_sublist (k : String) (d : List (String × α)) :
    (dictDel k d).Sublist d := by
  induction d with
  | nil => simp [dictDel]
  | cons p rest ih =>
    by_cases hp : p.1 = k
    · simp [dictDel, hp]
    · simpa [dictDel, hp] using ih.cons₂ p

theorem dictGet_eq_none_iff (k : String) (d : List (String × α)) :
    dictGet k d = none ↔ k ∉ d.map Prod.fst := by
  induction d with
  | nil => simp [dictGet]
  | cons p rest ih =>
    by_cases hp : p.1 = k
    · simp [dictGet, hp]
    · have hne : k ≠ p.1 := fun hh => hp hh.symm
      simp [dictGet, hp, ih, hne]

theorem dictGet_isSome_iff (k : String) (d : List (String × α)) :
    (dictGet k d).isSome = true ↔ k ∈ d.map Prod.fst := by
  rw [← Decidable.not_iff_not, ← dictGet_eq_none_iff]
  simp [Option.isSome_iff_ne_none]

theorem dictGet_del_self (k : String) (d : List (String × α))
    (hnd : (d.map Prod.fst).Nodup) : dictGet k (dictDel k d) = none := by
  induction d with
  | nil => simp [dictDel, dictGet]
  | cons p rest ih =>
    simp only [List.map_cons, List.nodup_cons] at hnd
    by_cases hp : p.1 = k
    · rw [dictDel, if_pos hp, dictGet_eq_none_iff]
      rw [hp] at hnd
      exact hnd.1
    · simp [dictDel, dictGet, hp, ih hnd.2]

theorem dictGet_mem (k : String) (v : α) (d : List (String × α))
    (h : dictGet k d = some v) : (k, v) ∈ d := by
  induction d with
  | nil => simp [dictGet] at h
  | cons p rest ih =>
    by_cases hp : p.1 = k
    · rw [dictGet, if_pos hp] at h
      have hv : p.2 = v := by injection h
      have : p = (k, v) := by
        cases p
        simp_all
      rw [← this]
      exact List.mem_cons_self p rest
    · rw [dictGet, if_neg hp] at h
      exact List.mem_cons_of_mem _ (ih h)

theorem keys_dictSet (k : String) (v : α) (d : List (String × α)) :
    (dictSet k v d).map Prod.fst
      = if k ∈ d.map Prod.fst then d.map Prod.fst else d.map Prod.fst ++ [k] := by
  induction d with
  | nil => simp [dictSet]
  | cons p rest ih =>
    by_cases hp : p.1 = k
    · simp [dictSet, hp]
    · have hne : k ≠ p.1 := fun hh => hp hh.symm
      by_cases hk : k ∈ rest.map Prod.fst <;>
        simp [dictSet, hp, ih, hne, hk]

theorem keys_dictSet_nodup (k : String) (v : α) (d : List (String × α))
    (hnd : (d.map Prod.fst).Nodup) : ((dictSet k v d).map Prod.fst).Nodup := by
  rw [keys_dictSet]
  by_cases hk : k ∈ d.map Prod.fst
  · simpa [hk]
  · simp only [hk, if_false]
    exact List.Nodup.append hnd (List.nodup_singleton k) (by simpa using hk)

theorem mem_dictSet (k : String) (v : α) (d : List (String × α)) (p : String × α)
    (h : p ∈ dictSet k v d) : p = (k, v) ∨ p ∈ d := by
  induction d with
  | nil => simpa [dictSet] using h
  | cons q rest ih =>
    by_cases hq : q.1 = k
    · rw [dictSet, if_pos hq] at h
      rcases List.mem_cons.mp h with h1 | h1
      · exact Or.inl h1
      · exact Or.inr (List.mem_cons_of_mem _ h1)
    · rw [dictSet, if_neg hq] at h
      rcases List.mem_cons.mp h with h1 | h1
      · exact Or.inr (by simp [h1])
      · rcases ih h1 with h' | h'
        · exact Or.inl h'
        · exact Or.inr (List.mem_cons_of_mem _ h')

theorem dictSet_ne_nil (k : String) (v : α) (d : List (String × α)) :
    dictSet k v d ≠ [] := by
  cases d with
  | nil => simp [dictSet]
  | cons p rest =>
    by_cases hp : p.1 = k <;> simp [dictSet, hp]

theorem dictDel_eq_nil (k : String) (d : List (String × α))
    (h : dictDel k d = []) : d = [] ∨ ∃ v, d = [(k, v)] := by
  cases d with
  | nil => exact Or.inl rfl
  | cons p rest =>
    by_cases hp : p.1 = k
    · rw [dictDel, if_pos hp] at h
      refine Or.inr ⟨p.2, ?_⟩
      cases p
      simp_all
    · rw [dictDel, if_neg hp] at h
      simp at h

/-! ## The registry well-formedness invariant

What the Python dict representation guarantees by construction: outer
keys unique, inner keys unique, and (the pruning invariant of the
source) every stored room has a non-empty inner dict. -/

abbrev Inv (reg : Registry) : Prop :=
  (reg.map Prod.fst).Nodup
    ∧ (∀ p ∈ reg, (p.2.map Prod.fst).Nodup)
    ∧ (∀ p ∈ reg, p.2 ≠ [])

theorem Inv_nil : Inv [] := by
  refine ⟨List.nodup_nil, ?_, ?_⟩ <;> intro p hp <;> simp at hp

theorem Inv_inner_nodup (reg : Registry) (room : String) (d : Inner)
    (hInv : Inv reg) (h : dictGet room reg = some d) :
    (d.map Prod.fst).Nodup :=
  hInv.2.1 (room, d) (dictGet_mem room d reg h)

theorem Inv_connect (reg : Registry) (room user : String) (ws : Handle)
    (hInv : Inv reg) : Inv (connect reg room user ws) := by
  have hinner0 : ∀ d, (match dictGet room reg with
      | none => ([] : Inner)
      | some d => d) = d → (d.map Prod.fst).Nodup := by
    intro d hd
    cases h : dictGet room reg with
    | none => rw [h] at hd; simp [← hd]
    | some d0 =>
      rw [h] at hd
      exact hd ▸ Inv_inner_nodup reg room d0 hInv h
  refine ⟨?_, ?_, ?_⟩
  · exact keys_dictSet_nodup _ _ _ hInv.1
  · intro p hp
    rcases mem_dictSet _ _ _ _ hp with h | h
    · rw [h]
      exact keys_dictSet_nodup _ _ _ (hinner0 _ rfl)
    · exact hInv.2.1 p h
  · intro p hp
    rcases mem_dictSet _ _ _ _ hp with h | h
    · rw [h]
      exact dictSet_ne_nil _ _ _
    · exact hInv.2.2 p h

theorem Inv_disconnect (reg : Registry) (room user : String)
    (hInv : Inv reg) : Inv (disconnect reg room user) := by
  unfold disconnect
  cases h : dictGet room reg with
  | none => exact hInv
  | some inner =>
    by_cases hu : (dictGet user inner).isSome
    · simp only [hu, if_true]
      by_cases hnil : dictDel user inner = []
      · simp only [hnil, if_pos]
        refine ⟨?_, ?_, ?_⟩
        · exact ((dictDel_sublist room reg).map Prod.fst).nodup hInv.1
        · intro p hp
          exact hInv.2.1 p ((dictDel_sublist room reg).subset hp)
        · intro p hp
          exact hInv.2.2 p ((dictDel_sublist room reg).subset hp)
      · simp only [hnil, if_neg, if_false]
        refine ⟨keys_dictSet_nodup _ _ _ hInv.1, ?_, ?_⟩
        · intro p hp
          rcases mem_dictSet _ _ _ _ hp with h' | h'
          · rw [h']
            exact ((dictDel_sublist user inner).map Prod.fst).nodup
              (Inv_inner_nodup reg room inner hInv h)
          · exact hInv.2.1 p h'
        · intro p hp
          rcases mem_dictSet _ _ _ _ hp with h' | h'
          · rw [h']
            exact hnil
          · exact hInv.2.2 p h'
    · simp only [hu, if_false]
      exact hInv

/-! ## Equation lemmas for the registry operations -/

theorem connect_eq_some (reg : Registry) (room user : String) (ws : Handle)
    (d : Inner) (hg : dictGet room reg = some d) :
    connect reg room user ws = dictSet room (dictSet user ws d) reg := by
  unfold connect
  rw [hg]

theorem connect_eq_none (reg : Registry) (room user : String) (ws : Handle)
    (hg : dictGet room reg = none) :
    connect reg room user ws = dictSet room (dictSet user ws []) reg := by
  unfold connect
  rw [hg]

theorem disconnect_eq_noroom (reg : Registry) (room user : String)
    (hg : dictGet room reg = none) : disconnect reg room user = reg := by
  unfold disconnect
  rw [hg]

theorem disconnect_eq_nouser (reg : Registry) (room user : String) (inner : Inner)
    (hg : dictGet room reg = some inner) (hu : dictGet user inner = none) :
    disconnect reg room user = reg := by
  unfold disconnect
  rw [hg]
  simp [hu]

theorem disconnect_eq_prune (reg : Registry) (room user : String) (inner : Inner)
    (hg : dictGet room reg = some inner) (hu : (dictGet user inner).isSome = true)
    (hnil : dictDel user inner = []) :
    disconnect reg room user = dictDel room reg := by
  unfold disconnect
  rw [hg]
  simp [hu, hnil]

theorem disconnect_eq_set (reg : Registry) (room user : String) (inner : Inner)
    (hg : dictGet room reg = some inner) (hu : (dictGet user inner).isSome = true)
    (hnil : dictDel user inner ≠ []) :
    disconnect reg room user = dictSet room (dictDel user inner) reg := by
  unfold disconnect
  rw [hg]
  simp [hu, hnil]

theorem broadcast_to_user_some (reg : Registry) (user room : String) (inner : Inner)
    (hg : dictGet room reg = some inner) :
    broadcast_to_user reg user room = dictGet user inner := by
  unfold broadcast_to_user
  rw [hg]

theorem broadcast_to_user_noroom (reg : Registry) (user room : String)
    (hg : dictGet room reg = none) :
    broadcast_to_user reg user room = none := by
  unfold broadcast_to_user
  rw [hg]

/-! ## Lookup behaviour of connect and disconnect -/

theorem connect_lookup_self (reg : Registry) (room user : String) (ws : Handle) :
    broadcast_to_user (connect reg room user ws) user room = some ws := by
  cases hg : dictGet room reg with
  | none =>
    rw [connect_eq_none _ _ _ _ hg,
      broadcast_to_user_some _ _ _ _ (dictGet_set_self _ _ _), dictGet_set_self]
  | some d =>
    rw [connect_eq_some _ _ _ _ _ hg,
      broadcast_to_user_some _ _ _ _ (dictGet_set_self _ _ _), dictGet_set_self]

theorem connect_lookup_other (reg : Registry) (room user : String) (ws : Handle)
    (r' u' : String) (h : ¬(r' = room ∧ u' = user)) :
    broadcast_to_user (connect reg room user ws) u' r'
      = broadcast_to_user reg u' r' := by
  by_cases hr : r' = room
  · have hu : u' ≠ user := fun hx => h ⟨hr, hx⟩
    subst hr
    cases hg : dictGet r' reg with
    | none =>
      rw [connect_eq_none _ _ _ _ hg,
        broadcast_to_user_some _ _ _ _ (dictGet_set_self _ _ _),
        dictGet_set_ne _ _ _ _ hu, broadcast_to_user_noroom _ _ _ hg]
      rfl
    | some d =>
      rw [connect_eq_some _ _ _ _ _ hg,
        broadcast_to_user_some _ _ _ _ (dictGet_set_self _ _ _),
        dictGet_set_ne _ _ _ _ hu, broadcast_to_user_some _ _ _ _ hg]
  · cases hg : dictGet room reg with
    | none =>
      rw [connect_eq_none _ _ _ _ hg]
      unfold broadcast_to_user
      rw [dictGet_set_ne _ _ _ _ hr]
    | some d =>
      rw [connect_eq_some _ _ _ _ _ hg]
      unfold broadcast_to_user
      rw [dictGet_set_ne _ _ _ _ hr]

theorem disconnect_lookup_self (reg : Registry) (room user : String)
    (hInv : Inv reg) :
    broadcast_to_user (disconnect reg room user) user room = none := by
  cases hg : dictGet room reg with
  | none =>
    rw [disconnect_eq_noroom _ _ _ hg]
    exact broadcast_to_user_noroom _ _ _ hg
  | some inner =>
    cases hu : dictGet user inner with
    | none =>
      rw [disconnect_eq_nouser _ _ _ _ hg hu]
      rw [broadcast_to_user_some _ _ _ _ hg]
      exact hu
    | some ws =>
      have hu' : (dictGet user inner).isSome = true := by rw [hu]; rfl
      by_cases hnil : dictDel user inner = []
      · rw [disconnect_eq_prune _ _ _ _ hg hu' hnil]
        exact broadcast_to_user_noroom _ _ _ (dictGet_del_self _ _ hInv.1)
      · rw [disconnect_eq_set _ _ _ _ hg hu' hnil,
          broadcast_to_user_some _ _ _ _ (dictGet_set_self _ _ _)]
        exact dictGet_del_self _ _ (Inv_inner_nodup reg room inner hInv hg)

theorem disconnect_lookup_other (reg : Registry) (room user : String)
    (r' u' : String) (hInv : Inv reg) (h : ¬(r' = room ∧ u' = user)) :
    broadcast_to_user (disconnect reg room user) u' r'
      = broadcast_to_user reg u' r' := by
  cases hg : dictGet room reg with
  | none => rw [disconnect_eq_noroom _ _ _ hg]
  | some inner =>
    cases hu : dictGet user inner with
    | none => rw [disconnect_eq_nouser _ _ _ _ hg hu]
    | some ws =>
      have hu' : (dictGet user inner).isSome = true := by rw [hu]; rfl
      by_cases hr : r' = room
      · have hne : u' ≠ user := fun hx => h ⟨hr, hx⟩
        subst hr
        by_cases hnil : dictDel user inner = []
        · rw [disconnect_eq_prune _ _ _ _ hg hu' hnil,
            broadcast_to_user_noroom _ _ _ (dictGet_del_self _ _ hInv.1),
            broadcast_to_user_some _ _ _ _ hg]
          rcases dictDel_eq_nil _ _ hnil with hinner | ⟨v, hinner⟩
          · simp [hinner, dictGet]
          · simp [hinner, dictGet, hne.symm]
        · rw [disconnect_eq_set _ _ _ _ hg hu' hnil,
            broadcast_to_user_some _ _ _ _ (dictGet_set_self _ _ _),
            dictGet_del_ne _ _ _ hne, broadcast_to_user_some _ _ _ _ hg]
      · by_cases hnil : dictDel user inner = []
        · rw [disconnect_eq_prune _ _ _ _ hg hu' hnil]
          unfold broadcast_to_user
          rw [dictGet_del_ne _ _ _ hr]
        · rw [disconnect_eq_set _ _ _ _ hg hu' hnil]
          unfold broadcast_to_user
          rw [dictGet_set_ne _ _ _ _ hr]

/-! ## Simulation of operation sequences (claim C2 machinery) -/

theorem applyOp_inv (reg : Registry) (op : RegOp) (hInv : Inv reg) :
    Inv (applyOp reg op) := by
  cases op with
  | conn r u ws => exact Inv_connect reg r u ws hInv
  | disc r u => exact Inv_disconnect reg r u hInv

theorem applyOp_lookup (reg : Registry) (op : RegOp) (hInv : Inv reg)
    (r u : String) :
    (broadcast_to_user (applyOp reg op) u r).isSome =
      specStep (broadcast_to_user reg u r).isSome op r u := by
  cases op with
  | conn r0 u0 ws =>
    by_cases hc : r0 = r ∧ u0 = u
    · obtain ⟨h1, h2⟩ := hc
      subst h1; subst h2
      simp only [applyOp, specStep]
      rw [connect_lookup_self]
      simp
    · have hcond : (r0 == r && u0 == u) = false := by
        rcases Decidable.not_and_iff_or_not.mp hc with h1 | h1 <;> simp [h1]
      have hswap : ¬(r = r0 ∧ u = u0) := fun hx => hc ⟨hx.1.symm, hx.2.symm⟩
      simp only [applyOp, specStep, hcond, Bool.false_eq_true, if_false]
      rw [connect_lookup_other reg r0 u0 ws r u hswap]
  | disc r0 u0 =>
    by_cases hc : r0 = r ∧ u0 = u
    · obtain ⟨h1, h2⟩ := hc
      subst h1; subst h2
      simp only [applyOp, specStep]
      rw [disconnect_lookup_self _ _ _ hInv]
      simp
    · have hcond : (r0 == r && u0 == u) = false := by
        rcases Decidable.not_and_iff_or_not.mp hc with h1 | h1 <;> simp [h1]
      have hswap : ¬(r = r0 ∧ u = u0) := fun hx => hc ⟨hx.1.symm, hx.2.symm⟩
      simp only [applyOp, specStep, hcond, Bool.false_eq_true, if_false]
      rw [disconnect_lookup_other reg r0 u0 r u hInv hswap]

theorem applyOps_lookup (ops : List RegOp) (reg : Registry)
    (f : String → String → Bool) (hInv : Inv reg)
    (hsim : ∀ r u, (broadcast_to_user reg u r).isSome = f r u) :
    Inv (applyOps reg ops)
      ∧ ∀ r u, (broadcast_to_user (applyOps reg ops) u r).isSome
          = specConnectedFrom (f r u) ops r u := by
  induction ops generalizing reg f with
  | nil => exact ⟨hInv, fun r u => hsim r u⟩
  | cons op rest ih =>
    have hInv' := applyOp_inv reg op hInv
    have hsim' : ∀ r u, (broadcast_to_user (applyOp reg op) u r).isSome =
        specStep (f r u) op r u := by
      intro r u
      rw [applyOp_lookup reg op hInv r u, hsim r u]
    have h := ih (applyOp reg op) (fun r u => specStep (f r u) op r u) hInv' hsim'
    refine ⟨h.1, fun r u => ?_⟩
    rw [show applyOps reg (op :: rest) = applyOps (applyOp reg op) rest from rfl]
    exact h.2 r u

theorem get_users_eq_some (reg : Registry) (room : String) (inner : Inner)
    (hg : dictGet room reg = some inner) :
    get_users_in_room reg room = inner.map Prod.fst := by
  unfold get_users_in_room
  rw [hg]

theorem get_users_eq_none (reg : Registry) (room : String)
    (hg : dictGet room reg = none) :
    get_users_in_room reg room = [] := by
  unfold get_users_in_room
  rw [hg]

theorem mem_users_iff_lookup (reg : Registry) (room user : String) :
    user ∈ get_users_in_room reg room
      ↔ (broadcast_to_user reg user room).isSome = true := by
  cases hg : dictGet room reg with
  | none =>
    rw [get_users_eq_none _ _ hg, broadcast_to_user_noroom _ _ _ hg]
    simp
  | some inner =>
    rw [get_users_eq_some _ _ _ hg, broadcast_to_user_some _ _ _ _ hg,
      dictGet_isSome_iff]

theorem users_nodup_of_inv (reg : Registry) (room : String) (hInv : Inv reg) :
    (get_users_in_room reg room).Nodup := by
  cases hg : dictGet room reg with
  | none => rw [get_users_eq_none _ _ hg]; exact List.nodup_nil
  | some inner =>
    rw [get_users_eq_some _ _ _ hg]
    exact Inv_inner_nodup reg room inner hInv hg

/-! ## Broadcast loop characterization -/

theorem sendLoop_run_eq (ex : Option String) (fails : Handle → Bool) (d : Inner) :
    sendLoop ex fails d =
      ((d.filter (fun p => !excludeMatches ex p.1)).takeWhile (fun p => !fails p.2)
         ++ ((d.filter (fun p => !excludeMatches ex p.1)).dropWhile
              (fun p => !fails p.2)).take 1,
       (d.filter (fun p => !excludeMatches ex p.1)).any (fun p => fails p.2)) := by
  induction d with
  | nil => simp [sendLoop]
  | cons p rest ih =>
    by_cases hex : excludeMatches ex p.1
    · simp only [sendLoop, hex, if_true, List.filter_cons, Bool.not_true,
        Bool.false_eq_true, if_false]
      exact ih
    · by_cases hf : fails p.2
      · simp [sendLoop, hex, hf, List.filter_cons, List.takeWhile_cons,
          List.dropWhile_cons]
      · simp only [sendLoop, hex, Bool.false_eq_true, if_false, hf, ih]
        simp [List.filter_cons, hex, List.takeWhile_cons, List.dropWhile_cons, hf]

theorem broadcast_run_eq (reg : Registry) (room : String) (ex : Option String)
    (fails : Handle → Bool) :
    broadcast_to_room_run reg room ex fails =
      (let rec0 := ((dictGet room reg).getD []).filter (fun p => !excludeMatches ex p.1)
       (rec0.takeWhile (fun p => !fails p.2)
          ++ (rec0.dropWhile (fun p => !fails p.2)).take 1,
        rec0.any (fun p => fails p.2))) := by
  unfold broadcast_to_room_run
  cases hg : dictGet room reg with
  | none => simp
  | some inner => simpa using sendLoop_run_eq ex fails inner

theorem takeWhile_const_true (l : List α) :
    l.takeWhile (fun _ => true) = l := by
  induction l with
  | nil => rfl
  | cons a rest ih => simp [List.takeWhile_cons, ih]

theorem dropWhile_const_true (l : List α) :
    l.dropWhile (fun _ => true) = [] := by
  induction l with
  | nil => rfl
  | cons a rest ih => simp [List.dropWhile_cons, ih]

theorem broadcast_to_room_eq_filter (reg : Registry) (room : String)
    (ex : Option String) :
    broadcast_to_room reg room ex
      = ((dictGet room reg).getD []).filter (fun p => !excludeMatches ex p.1) := by
  unfold broadcast_to_room
  rw [broadcast_run_eq]
  simp [takeWhile_const_true, dropWhile_const_true]

theorem map_fst_filter_ex (ex : Option String) (d : Inner) :
    (d.filter (fun p => !excludeMatches ex p.1)).map Prod.fst
      = (d.map Prod.fst).filter (fun x => !excludeMatches ex x) := by
  induction d with
  | nil => rfl
  | cons p rest ih =>
    by_cases hq : excludeMatches ex p.1 <;> simp [List.filter_cons, hq, ih]

theorem excludeMatches_none (u : String) : excludeMatches none u = false := rfl

theorem excludeMatches_empty (u : String) : excludeMatches (some "") u = false := by
  simp [excludeMatches]

theorem excludeMatches_some (s u : String) (hs : s ≠ "") :
    excludeMatches (some s) u = (u == s) := by
  simp [excludeMatches, hs]

/-! ## Handle counting (claim C8 machinery) -/

theorem registryHandles_cons (p : String × Inner) (rest : Registry) :
    registryHandles (p :: rest) = p.2.map Prod.snd ++ registryHandles rest := by
  simp [registryHandles]

theorem count_snd_dictSet (d : Inner) (u : String) (h1 h2 : Handle)
    (hget : dictGet u d = some h1) (hne : h2 ≠ h1) :
    ((dictSet u h2 d).map Prod.snd).count h1 + 1 = (d.map Prod.snd).count h1 := by
  induction d with
  | nil => simp [dictGet] at hget
  | cons p rest ih =>
    by_cases hp : p.1 = u
    · rw [dictGet, if_pos hp] at hget
      have hv : p.2 = h1 := by injection hget
      rw [dictSet, if_pos hp]
      simp [List.count_cons, hv, hne, Ne.symm hne]
    · rw [dictGet, if_neg hp] at hget
      rw [dictSet, if_neg hp]
      simp only [List.map_cons, List.count_cons]
      have := ih hget
      omega

theorem count_registryHandles_dictSet (reg : Registry) (room : String)
    (inner inner' : Inner) (x : Handle) (hg : dictGet room reg = some inner) :
    (registryHandles (dictSet room inner' reg)).count x
        + (inner.map Prod.snd).count x
      = (registryHandles reg).count x + (inner'.map Prod.snd).count x := by
  induction reg with
  | nil => simp [dictGet] at hg
  | cons p rest ih =>
    by_cases hp : p.1 = room
    · rw [dictGet, if_pos hp] at hg
      have hv : p.2 = inner := by injection hg
      rw [dictSet, if_pos hp, registryHandles_cons, registryHandles_cons]
      simp only [List.count_append, hv]
      omega
    · rw [dictGet, if_neg hp] at hg
      rw [dictSet, if_neg hp, registryHandles_cons, registryHandles_cons]
      simp only [List.count_append]
      have := ih hg
      omega

theorem mem_registryHandles (reg : Registry) (p : String × Inner) (x : Handle)
    (hp : p ∈ reg) (hx : x ∈ p.2.map Prod.snd) : x ∈ registryHandles reg := by
  unfold registryHandles
  rw [List.mem_flatten]
  exact ⟨p.2.map Prod.snd, List.mem_map_of_mem _ hp, hx⟩

theorem broadcast_handle_mem (reg : Registry) (room : String) (ex : Option String)
    (q : String × Handle) (hq : q ∈ broadcast_to_room reg room ex) :
    q.2 ∈ registryHandles reg := by
  rw [broadcast_to_room_eq_filter] at hq
  cases hg : dictGet room reg with
  | none => rw [hg] at hq; simp at hq
  | some inner =>
    rw [hg] at hq
    have hmem : q ∈ inner := List.mem_of_mem_filter hq
    exact mem_registryHandles reg (room, inner) q.2 (dictGet_mem _ _ _ hg)
      (List.mem_map_of_mem Prod.snd hmem)

theorem lookup_handle_mem (reg : Registry) (u r : String) (ws : Handle)
    (h : broadcast_to_user reg u r = some ws) : ws ∈ registryHandles reg := by
  cases hg : dictGet r reg with
  | none => rw [broadcast_to_user_noroom _ _ _ hg] at h; exact absurd h (by simp)
  | some inner =>
    rw [broadcast_to_user_some _ _ _ _ hg] at h
    exact mem_registryHandles reg (r, inner) ws (dictGet_mem _ _ _ hg)
      (List.mem_map_of_mem Prod.snd (dictGet_mem _ _ _ h))

/-! ## Endpoint dispatch and cleanup lemmas -/

theorem add_user_to_room_users (db : Db) (uid rid : Nat) (m : Bool) :
    (add_user_to_room db uid rid m).1.users = db.users := by
  unfold add_user_to_room
  cases db.memberships.find? (fun x => x.user_id == uid && x.room_id == rid) <;> rfl

theorem create_room_users (db : Db) (name : String) (pub : Bool) (mx cid : Nat) :
    (create_room db name pub mx cid).1.users = db.users := by
  unfold create_room
  rw [add_user_to_room_users]

theorem wsProceed_db_users (db : Db) (reg : Registry) (room_id user_id : String)
    (user : UserRec) (ws : Handle) (events : List InEvent) :
    (wsProceed db reg room_id user_id user ws events).db.users = db.users := by
  unfold wsProceed
  cases hroom : get_room_by_name db room_id with
  | none =>
    by_cases hl : (readChatBroadcasts (connect reg room_id user_id ws)
        room_id user_id events).2 = true <;>
      simp [hl, add_user_to_room_users, create_room_users]
  | some room =>
    by_cases hl : (readChatBroadcasts (connect reg room_id user_id ws)
        room_id user_id events).2 = true <;>
      simp [hl, add_user_to_room_users]

theorem wsProceed_reachedActive (db : Db) (reg : Registry) (room_id user_id : String)
    (user : UserRec) (ws : Handle) (events : List InEvent) :
    (wsProceed db reg room_id user_id user ws events).reachedActive = true := by
  unfold wsProceed
  by_cases hl : (readChatBroadcasts (connect reg room_id user_id ws)
      room_id user_id events).2 = true <;>
    simp [hl]

theorem wsProceed_closeCode (db : Db) (reg : Registry) (room_id user_id : String)
    (user : UserRec) (ws : Handle) (events : List InEvent) :
    (wsProceed db reg room_id user_id user ws events).closeCode = none := by
  unfold wsProceed
  by_cases hl : (readChatBroadcasts (connect reg room_id user_id ws)
      room_id user_id events).2 = true <;>
    simp [hl]

theorem wsProceed_ended (db : Db) (reg : Registry) (room_id user_id : String)
    (user : UserRec) (ws : Handle) (events : List InEvent)
    (hend : (wsProceed db reg room_id user_id user ws events).loopEnded = true) :
    (wsProceed db reg room_id user_id user ws events).reg
        = disconnect (connect reg room_id user_id ws) room_id user_id
      ∧ (broadcastDeliver (wsProceed db reg room_id user_id user ws events).reg
           room_id
           (.system (user_id ++ " has left the room.")
             (get_users_in_room (wsProceed db reg room_id user_id user ws events).reg
               room_id))
           none)
          <:+ (wsProceed db reg room_id user_id user ws events).deliveries := by
  by_cases hl : (readChatBroadcasts (connect reg room_id user_id ws)
      room_id user_id events).2 = true
  · constructor
    · unfold wsProceed
      simp [hl]
    · have hreg : (wsProceed db reg room_id user_id user ws events).reg
          = disconnect (connect reg room_id user_id ws) room_id user_id := by
        unfold wsProceed
        simp [hl]
      have hds : ∃ pre,
          (wsProceed db reg room_id user_id user ws events).deliveries
            = pre ++ broadcastDeliver
                (disconnect (connect reg room_id user_id ws) room_id user_id)
                room_id
                (.system (user_id ++ " has left the room.")
                  (get_users_in_room
                    (disconnect (connect reg room_id user_id ws) room_id user_id)
                    room_id))
                none := by
        refine ⟨(broadcastDeliver (connect reg room_id user_id ws) room_id
            (.system (user_id ++ " has joined the room.")
              (get_users_in_room (connect reg room_id user_id ws) room_id)) none)
          ++ (readChatBroadcasts (connect reg room_id user_id ws)
              room_id user_id events).1, ?_⟩
        unfold wsProceed
        simp [hl]
      rcases hds with ⟨pre, hds⟩
      rw [hds, hreg]
      exact List.suffix_append pre _
  · exfalso
    apply hl
    unfold wsProceed at hend
    by_cases hl2 : (readChatBroadcasts (connect reg room_id user_id ws)
        room_id user_id events).2 = true
    · exact hl2
    · simp [hl2] at hend

theorem websocket_endpoint_mismatch (db : Db) (reg : Registry)
    (room_id user_id token : String) (ws : Handle) (events : List InEvent)
    (h : user_id ≠ token) :
    websocket_endpoint db reg room_id user_id token ws events
      = ⟨db, reg, [], some WS_1008, false, false⟩ := by
  unfold websocket_endpoint
  simp [h]

theorem websocket_endpoint_known (db : Db) (reg : Registry)
    (room_id user_id : String) (ws : Handle) (events : List InEvent)
    (user : UserRec) (huser : get_user_by_username db user_id = some user) :
    websocket_endpoint db reg room_id user_id user_id ws events
      = wsProceed db reg room_id user_id user ws events := by
  unfold websocket_endpoint
  simp [huser]

theorem websocket_endpoint_provision (db : Db) (reg : Registry)
    (room_id user_id : String) (ws : Handle) (events : List InEvent)
    (huser : get_user_by_username db user_id = none)
    (ha : allow_list.any (fun test_name => pyIn test_name user_id) = true) :
    websocket_endpoint db reg room_id user_id user_id ws events
      = wsProceed (create_user db user_id (user_id ++ "@test.com")).1 reg
          room_id user_id (create_user db user_id (user_id ++ "@test.com")).2
          ws events := by
  unfold websocket_endpoint
  simp [huser, ha]

theorem websocket_endpoint_reject (db : Db) (reg : Registry)
    (room_id user_id : String) (ws : Handle) (events : List InEvent)
    (huser : get_user_by_username db user_id = none)
    (ha : allow_list.any (fun test_name => pyIn test_name user_id) = false) :
    websocket_endpoint db reg room_id user_id user_id ws events
      = ⟨db, reg, [], some WS_1008, false, false⟩ := by
  unfold websocket_endpoint
  simp [huser, ha]

theorem lookup_disconnect_connect (reg : Registry) (room user : String)
    (ws : Handle) (hInv : Inv reg) :
    broadcast_to_user (disconnect (connect reg room user ws) room user)
      user room = none :=
  disconnect_lookup_self _ _ _ (Inv_connect reg room user ws hInv)

theorem get_users_eq_getD (reg : Registry) (room : String) :
    get_users_in_room reg room = ((dictGet room reg).getD []).map Prod.fst := by
  cases hg : dictGet room reg with
  | none => rw [get_users_eq_none _ _ hg]; rfl
  | some inner => rw [get_users_eq_some _ _ _ hg]; rfl

theorem find?_append_none (p : α → Bool) (l1 l2 : List α)
    (h : l1.find? p = none) : (l1 ++ l2).find? p = l2.find? p := by
  simp [List.find?_append, h]

theorem map_fst_broadcast (reg : Registry) (room : String) (ex : Option String) :
    (broadcast_to_room reg room ex).map Prod.fst
      = (get_users_in_room reg room).filter (fun x => !excludeMatches ex x) := by
  rw [broadcast_to_room_eq_filter, map_fst_filter_ex, ← get_users_eq_getD]

/-! ## Concrete fixtures used by witnesses and counterexamples -/

def c1reg : Registry := connect (connect [] "r" "u1" 0) "r" "u2" 1

def c7reg : Registry := connect (connect [] "r" "" 0) "r" "b" 1

def c8reg : Registry := connect [] "r" "u" 5

def c10reg : Registry := connect (connect [] "s" "" 3) "s" "c" 4

def c4db : Db := ⟨[⟨1, "alice", "alice@test.com", true⟩], [], [], 2, 1, 1⟩

def c5db : Db :=
  ⟨[⟨1, "alice", "alice@test.com", true⟩, ⟨2, "bob", "bob@test.com", true⟩],
   [⟨1, "general", true, 1, true, 2⟩],
   [⟨1, 2, 1, false⟩], 3, 2, 2⟩

def c6db : Db := ⟨[], [], [], 1, 1, 1⟩

/-! ## The claims -/

/-- Claim C1 (amended): a send failure aborts `broadcast_to_room`.  The
attempted recipients are exactly the non-excluded recipients up to and
including the first failing one — recipients after the first failure
receive no delivery attempt, and the exception escapes the loop; only
when no send fails is every registered recipient attempted. -/
theorem C1_broadcast_stops_at_first_failure (reg : Registry) (room : String)
    (ex : Option String) (fails : Handle → Bool) :
    broadcast_to_room_run reg room ex fails
      = (let rec0 := ((dictGet room reg).getD []).filter
            (fun p => !excludeMatches ex p.1)
         (rec0.takeWhile (fun p => !fails p.2)
            ++ (rec0.dropWhile (fun p => !fails p.2)).take 1,
          rec0.any (fun p => fails p.2))) := by
  unfold broadcast_to_room_run
  cases hg : dictGet room reg with
  | none => simp
  | some inner => simpa using sendLoop_run_eq ex fails inner

/-- Claim C1 counterexample: in a room with registered users `u1` then
`u2`, a failing send to `u1` means `u2` — registered at call entry —
never receives a delivery attempt, contradicting the claim. -/
theorem C1_counterexample :
    broadcast_to_user c1reg "u2" "r" = some 1
    ∧ broadcast_to_room_run c1reg "r" none (fun h => h == 0) = ([("u1", 0)], true)
    ∧ ("u2" ∉ ((broadcast_to_room_run c1reg "r" none
          (fun h => h == 0)).1.map Prod.fst)) := by
  refine ⟨by decide, by decide, by decide⟩

/-- Claim C2: for every sequence of connect/disconnect operations from the
empty registry, every stored room has a non-empty inner mapping (rooms are
pruned on last disconnect), `get_users_in_room` lists exactly the currently
connected user keys with no duplicates, and it is empty exactly when the
room key is absent from the registry. -/
theorem C2_registry_users_invariant (ops : List RegOp) (room user : String) :
    (applyOps [] ops).all (fun p => !p.2.isEmpty) = true
    ∧ (get_users_in_room (applyOps [] ops) room).Nodup
    ∧ (user ∈ get_users_in_room (applyOps [] ops) room
        ↔ specConnected ops room user = true)
    ∧ ((get_users_in_room (applyOps [] ops) room).isEmpty
        = (dictGet room (applyOps [] ops)).isNone) := by
  have h := applyOps_lookup ops [] (fun _ _ => false) Inv_nil
    (fun r u => rfl)
  refine ⟨?_, users_nodup_of_inv _ _ h.1, ?_, ?_⟩
  · rw [List.all_eq_true]
    intro p hp
    have hne := h.1.2.2 p hp
    simpa using hne
  · rw [mem_users_iff_lookup, h.2 room user]
    exact Iff.rfl
  · cases hg : dictGet room (applyOps [] ops) with
    | none => rw [get_users_eq_none _ _ hg]; rfl
    | some inner =>
      rw [get_users_eq_some _ _ _ hg]
      have hne := h.1.2.2 (room, inner) (dictGet_mem _ _ _ hg)
      simp only [Option.isNone_some]
      rw [List.isEmpty_eq_false]
      simpa using hne

/-- Claim C7 (amended): `broadcast_to_room` with no exclusion delivers
exactly once to every registered user of the room (so a sender of a chat
message receives its own echo), and with exclusion key `u` it delivers
exactly once to every registered user except `u` — provided `u` is
non-empty: an empty-string exclusion key is falsy in the source's guard
and disables exclusion entirely. -/
theorem C7_exclusion_semantics (reg : Registry) (room u s : String)
    (hInv : Inv reg) :
    (broadcast_to_room reg room none).map Prod.fst = get_users_in_room reg room
    ∧ ((broadcast_to_room reg room (some u)).map Prod.fst
        = if u = "" then get_users_in_room reg room
          else (get_users_in_room reg room).filter (fun x => !(x == u)))
    ∧ (get_users_in_room reg room).Nodup
    ∧ (((broadcast_to_room reg room none).map Prod.fst).contains s
        = (get_users_in_room reg room).contains s) := by
  have h1 : (broadcast_to_room reg room none).map Prod.fst
      = get_users_in_room reg room := by
    rw [map_fst_broadcast]
    simp [excludeMatches]
  refine ⟨h1, ?_, users_nodup_of_inv _ _ hInv, by rw [h1]⟩
  by_cases hu : u = ""
  · subst hu
    rw [if_pos rfl, map_fst_broadcast]
    simp [excludeMatches]
  · rw [if_neg hu, map_fst_broadcast]
    congr 1
    funext x
    rw [excludeMatches_some _ _ hu]

/-- Claim C7 witness: the amended exclusion semantics evaluated on a
two-user room with exclusion key `b`. -/
theorem C7_exclusion_semantics_witness :
    Inv c7reg
    ∧ ((broadcast_to_room c7reg "r" none).map Prod.fst
          = get_users_in_room c7reg "r"
        ∧ ((broadcast_to_room c7reg "r" (some "b")).map Prod.fst
            = if "b" = "" then get_users_in_room c7reg "r"
              else (get_users_in_room c7reg "r").filter (fun x => !(x == "b")))
        ∧ (get_users_in_room c7reg "r").Nodup
        ∧ (((broadcast_to_room c7reg "r" none).map Prod.fst).contains "b"
            = (get_users_in_room c7reg "r").contains "b")) :=
  ⟨by decide, C7_exclusion_semantics c7reg "r" "b" "b" (by decide)⟩

/-- Claim C7 counterexample: a user registered under the empty-string key
is not excluded by `exclude_user_id = ""` — it still receives the
payload, so the claim's "delivers to every user except U" fails at
`U = ""`. -/
theorem C7_counterexample :
    "" ∈ (get_users_in_room c7reg "r")
    ∧ broadcast_to_room c7reg "r" (some "") = [("", 0), ("b", 1)]
    ∧ "" ∈ ((broadcast_to_room c7reg "r" (some "")).map Prod.fst) := by
  refine ⟨by decide, by decide, by decide⟩

/-- Claim C10: an empty-string `exclude_user_id` is falsy in the guard
`if exclude_user_id and user_id == exclude_user_id`, so exclusion is
disabled entirely: broadcasting with exclusion key `""` equals
broadcasting with no exclusion, a user registered under the empty-string
key still receives the payload, while any non-empty exclusion key is
excluded. -/
theorem C10_empty_string_exclusion (reg : Registry) (room u : String)
    (hmem : "" ∈ get_users_in_room reg room) (hu : u ≠ "") :
    broadcast_to_room reg room (some "") = broadcast_to_room reg room none
    ∧ "" ∈ (broadcast_to_room reg room (some "")).map Prod.fst
    ∧ u ∉ (broadcast_to_room reg room (some u)).map Prod.fst := by
  have h1 : broadcast_to_room reg room (some "")
      = broadcast_to_room reg room none := by
    rw [broadcast_to_room_eq_filter, broadcast_to_room_eq_filter]
    simp [excludeMatches_empty, excludeMatches_none]
  refine ⟨h1, ?_, ?_⟩
  · rw [h1, map_fst_broadcast]
    simpa [excludeMatches] using hmem
  · rw [map_fst_broadcast]
    intro hc
    have := List.of_mem_filter hc
    rw [excludeMatches_some _ _ hu] at this
    simp at this

/-- Claim C10 witness: the empty-string exclusion behaviour evaluated on a
room holding users `""` and `c`. -/
theorem C10_empty_string_exclusion_witness :
    "" ∈ get_users_in_room c10reg "s"
    ∧ ("c" : String) ≠ ""
    ∧ (broadcast_to_room c10reg "s" (some "")
          = broadcast_to_room c10reg "s" none
        ∧ "" ∈ (broadcast_to_room c10reg "s" (some "")).map Prod.fst
        ∧ "c" ∉ (broadcast_to_room c10reg "s" (some "c")).map Prod.fst) :=
  ⟨by decide, by decide,
    C10_empty_string_exclusion c10reg "s" "c" (by decide) (by decide)⟩

/-- Claim C3: whenever an authenticated session reaches Active and its read
loop exits — graceful disconnect or an unhandled read error such as a
message missing the `message` field — the `finally` cleanup removes the
session's (room, user) registry entry and broadcasts the system leave
message (with the post-removal occupant list) to the remaining members. -/
theorem C3_cleanup_on_every_exit (db : Db) (reg : Registry)
    (room_id user_id token : String) (ws : Handle) (events : List InEvent)
    (hInv : Inv reg)
    (hact : (websocket_endpoint db reg room_id user_id token ws
        events).reachedActive = true)
    (hend : (websocket_endpoint db reg room_id user_id token ws
        events).loopEnded = true) :
    broadcast_to_user
        (websocket_endpoint db reg room_id user_id token ws events).reg
        user_id room_id = none
    ∧ (broadcastDeliver
          (websocket_endpoint db reg room_id user_id token ws events).reg
          room_id
          (.system (user_id ++ " has left the room.")
            (get_users_in_room
              (websocket_endpoint db reg room_id user_id token ws events).reg
              room_id))
          none)
        <:+ (websocket_endpoint db reg room_id user_id token ws
            events).deliveries := by
  by_cases htok : user_id = token
  · subst htok
    cases huser : get_user_by_username db user_id with
    | some user =>
      rw [websocket_endpoint_known db reg room_id user_id ws events user huser]
        at hact hend ⊢
      obtain ⟨hreg, hsuf⟩ := wsProceed_ended db reg room_id user_id user ws
        events hend
      exact ⟨by rw [hreg]; exact lookup_disconnect_connect _ _ _ _ hInv, hsuf⟩
    | none =>
      by_cases ha : allow_list.any (fun t => pyIn t user_id) = true
      · rw [websocket_endpoint_provision db reg room_id user_id ws events
          huser ha] at hact hend ⊢
        obtain ⟨hreg, hsuf⟩ := wsProceed_ended _ reg room_id user_id _ ws
          events hend
        exact ⟨by rw [hreg]; exact lookup_disconnect_connect _ _ _ _ hInv, hsuf⟩
      · rw [websocket_endpoint_reject db reg room_id user_id ws events huser
          (Bool.not_eq_true _ ▸ ha)] at hact
        simp at hact
  · rw [websocket_endpoint_mismatch db reg room_id user_id token ws events
      htok] at hact
    simp at hact

/-- Claim C3 witness: a session for `alice` in `general` that ends by
transport disconnect has its registry entry removed and the leave
broadcast as the suffix of its deliveries. -/
theorem C3_cleanup_on_every_exit_witness :
    Inv ([] : Registry)
    ∧ (websocket_endpoint c6db [] "general" "alice" "alice" 7
        [.disc]).reachedActive = true
    ∧ (websocket_endpoint c6db [] "general" "alice" "alice" 7
        [.disc]).loopEnded = true
    ∧ (broadcast_to_user
          (websocket_endpoint c6db [] "general" "alice" "alice" 7 [.disc]).reg
          "alice" "general" = none
        ∧ (broadcastDeliver
              (websocket_endpoint c6db [] "general" "alice" "alice" 7
                [.disc]).reg
              "general"
              (.system ("alice" ++ " has left the room.")
                (get_users_in_room
                  (websocket_endpoint c6db [] "general" "alice" "alice" 7
                    [.disc]).reg "general"))
              none)
            <:+ (websocket_endpoint c6db [] "general" "alice" "alice" 7
                [.disc]).deliveries) :=
  ⟨by decide, by decide, by decide,
    C3_cleanup_on_every_exit c6db [] "general" "alice" "alice" 7 [.disc]
      (by decide) (by decide) (by decide)⟩

/-- Claim C4: a connection whose path user id differs from the identity
resolved from the token is closed with the policy-violation code before
any mutation: database tables, registry, and deliveries are all exactly
as before the attempt. -/
theorem C4_identity_mismatch_rejected (db : Db) (reg : Registry)
    (room_id user_id token : String) (ws : Handle) (events : List InEvent)
    (h : user_id ≠ token) :
    websocket_endpoint db reg room_id user_id token ws events
      = ⟨db, reg, [], some WS_1008, false, false⟩ :=
  websocket_endpoint_mismatch db reg room_id user_id token ws events h

/-- Claim C4 witness: path user `bob` with a token resolving to `alice` is
rejected with code 1008 and nothing changes. -/
theorem C4_identity_mismatch_rejected_witness :
    ("bob" : String) ≠ "alice"
    ∧ websocket_endpoint c4db [] "general" "bob" "alice" 7 []
        = ⟨c4db, [], [], some WS_1008, false, false⟩ :=
  ⟨by decide,
    C4_identity_mismatch_rejected c4db [] "general" "bob" "alice" 7 []
      (by decide)⟩

/-- Claim C8: a second connect for an already-connected (room, user) pair
replaces the stored handle: the pair maps to the new handle, the registry
stays well-formed (at most one handle per pair), and the prior handle is
gone from the registry, so no `broadcast_to_room` or `broadcast_to_user`
can deliver to it. -/
theorem C8_reconnect_replaces_handle (reg : Registry) (room user : String)
    (h1 h2 : Handle) (r' u' : String) (e : Option String)
    (hInv : Inv reg)
    (hcur : broadcast_to_user reg user room = some h1)
    (hone : (registryHandles reg).count h1 = 1)
    (hne : h2 ≠ h1) :
    broadcast_to_user (connect reg room user h2) user room = some h2
    ∧ Inv (connect reg room user h2)
    ∧ h1 ∉ registryHandles (connect reg room user h2)
    ∧ h1 ∉ (broadcast_to_room (connect reg room user h2) r' e).map Prod.snd
    ∧ broadcast_to_user (connect reg room user h2) u' r' ≠ some h1 := by
  have habsent : h1 ∉ registryHandles (connect reg room user h2) := by
    cases hg : dictGet room reg with
    | none =>
      rw [broadcast_to_user_noroom _ _ _ hg] at hcur
      exact absurd hcur (by simp)
    | some inner =>
      rw [broadcast_to_user_some _ _ _ _ hg] at hcur
      have hcount1 := count_registryHandles_dictSet reg room inner
        (dictSet user h2 inner) h1 hg
      have hcount2 := count_snd_dictSet inner user h1 h2 hcur hne
      rw [connect_eq_some _ _ _ _ _ hg]
      rw [← List.count_eq_zero]
      omega
  refine ⟨connect_lookup_self reg room user h2,
    Inv_connect reg room user h2 hInv, habsent, ?_, ?_⟩
  · intro hmem
    rcases List.mem_map.mp hmem with ⟨q, hq, hq2⟩
    exact habsent (hq2 ▸ broadcast_handle_mem _ r' e q hq)
  · intro heq
    exact habsent (lookup_handle_mem _ u' r' h1 heq)

/-- Claim C8 witness: reconnecting pair (`r`, `u`) with handle 7 replaces
the prior handle 5, which is then unreachable by broadcast or targeted
send. -/
theorem C8_reconnect_replaces_handle_witness :
    Inv c8reg
    ∧ broadcast_to_user c8reg "u" "r" = some 5
    ∧ (registryHandles c8reg).count 5 = 1
    ∧ (7 : Handle) ≠ 5
    ∧ (broadcast_to_user (connect c8reg "r" "u" 7) "u" "r" = some 7
        ∧ Inv (connect c8reg "r" "u" 7)
        ∧ 5 ∉ registryHandles (connect c8reg "r" "u" 7)
        ∧ 5 ∉ (broadcast_to_room (connect c8reg "r" "u" 7) "r" none).map Prod.snd
        ∧ broadcast_to_user (connect c8reg "r" "u" 7) "u" "r" ≠ some 5) :=
  ⟨by decide, by decide, by decide, by decide,
    C8_reconnect_replaces_handle c8reg "r" "u" 5 7 "r" "u" none
      (by decide) (by decide) (by decide) (by decide)⟩

/-- Claim C5 (amended): only the REST `join_room` handler enforces
capacity — it rejects exactly when the member count has reached
`max_users`; the websocket chat admission performs no capacity check and
always establishes the chat session for a resolved user. -/
theorem C5_capacity_only_on_rest_join (db : Db) (room_id current_user_id : Nat)
    (room : RoomRec) (db2 : Db) (reg : Registry) (room2 user2 : String)
    (ws : Handle) (events : List InEvent) (user : UserRec)
    (hroom : get_room_by_id db room_id = some room)
    (huser : get_user_by_username db2 user2 = some user) :
    ((join_room db room_id current_user_id).2 = JoinResult.atCapacity
      ↔ room.max_users ≤ get_room_user_count db room_id)
    ∧ (websocket_endpoint db2 reg room2 user2 user2 ws
        events).reachedActive = true := by
  constructor
  · unfold join_room
    rw [hroom]
    by_cases hc : get_room_user_count db room_id ≥ room.max_users
    · simp [hc]
    · simp [hc]
  · rw [websocket_endpoint_known db2 reg room2 user2 ws events user huser]
    exact wsProceed_reachedActive db2 reg room2 user2 user ws events

/-- Claim C5 witness: the REST capacity law and the unconditional chat
admission evaluated on the full room `general` (max 1, count 1). -/
theorem C5_capacity_only_on_rest_join_witness :
    get_room_by_id c5db 1 = some ⟨1, "general", true, 1, true, 2⟩
    ∧ get_user_by_username c5db "alice" = some ⟨1, "alice", "alice@test.com", true⟩
    ∧ (((join_room c5db 1 1).2 = JoinResult.atCapacity
          ↔ (⟨1, "general", true, 1, true, 2⟩ : RoomRec).max_users
              ≤ get_room_user_count c5db 1)
        ∧ (websocket_endpoint c5db [] "general" "alice" "alice" 7
            [.disc]).reachedActive = true) :=
  ⟨by decide, by decide,
    C5_capacity_only_on_rest_join c5db 1 1 ⟨1, "general", true, 1, true, 2⟩
      c5db [] "general" "alice" 7 [.disc] ⟨1, "alice", "alice@test.com", true⟩
      (by decide) (by decide)⟩

/-- Claim C5 counterexample: room `general` has `max_users = 1` and is
already full (one recorded membership), yet the websocket chat admission
for `alice` is not rejected: the session reaches Active, no close code is
sent, and a second membership row is recorded. -/
theorem C5_counterexample :
    get_room_by_name c5db "general" = some ⟨1, "general", true, 1, true, 2⟩
    ∧ 1 ≤ get_room_user_count c5db 1
    ∧ (websocket_endpoint c5db [] "general" "alice" "alice" 7
        [.disc]).reachedActive = true
    ∧ (websocket_endpoint c5db [] "general" "alice" "alice" 7
        [.disc]).closeCode = none
    ∧ get_room_user_count
        (websocket_endpoint c5db [] "general" "alice" "alice" 7 [.disc]).db 1
      = 2 := by
  refine ⟨by decide, by decide, by decide, by decide, by decide⟩

/-- Claim C6 (amended): for an identity unknown to the user store, the
endpoint auto-provisions exactly when some placeholder name of the
hardcoded list occurs as a substring of the identity (Python's `in`), and
closes with the policy-violation code exactly otherwise — so identities
that merely contain a placeholder name, such as `malice`, are provisioned
although they are not on the list. -/
theorem C6_provisioning_is_substring_match (db : Db) (reg : Registry)
    (room_id user_id : String) (ws : Handle) (events : List InEvent)
    (huser : get_user_by_username db user_id = none) :
    (websocket_endpoint db reg room_id user_id user_id ws events).closeCode
      = (if allow_list.any (fun t => pyIn t user_id) then none
         else some WS_1008)
    ∧ (get_user_by_username
          (websocket_endpoint db reg room_id user_id user_id ws events).db
          user_id).isSome
      = allow_list.any (fun t => pyIn t user_id) := by
  by_cases ha : allow_list.any (fun t => pyIn t user_id) = true
  · rw [websocket_endpoint_provision db reg room_id user_id ws events huser ha]
    constructor
    · rw [wsProceed_closeCode, ha, if_pos rfl]
    · rw [ha]
      unfold get_user_by_username
      rw [wsProceed_db_users]
      have husers : (create_user db user_id (user_id ++ "@test.com")).1.users
          = db.users ++ [⟨db.nextUserId, user_id, user_id ++ "@test.com", true⟩] :=
        rfl
      rw [husers, find?_append_none _ _ _ huser]
      simp [List.find?]
  · have ha' : allow_list.any (fun t => pyIn t user_id) = false :=
      Bool.not_eq_true _ ▸ ha
    rw [websocket_endpoint_reject db reg room_id user_id ws events huser ha']
    rw [ha']
    exact ⟨rfl, by simp [huser]⟩

/-- Claim C6 witness: the provisioning rule evaluated for the unknown
identity `zzz`, which matches no placeholder name and is rejected. -/
theorem C6_provisioning_is_substring_match_witness :
    get_user_by_username c6db "zzz" = none
    ∧ ((websocket_endpoint c6db [] "general" "zzz" "zzz" 7 []).closeCode
          = (if allow_list.any (fun t => pyIn t "zzz") then none
             else some WS_1008)
        ∧ (get_user_by_username
              (websocket_endpoint c6db [] "general" "zzz" "zzz" 7 []).db
              "zzz").isSome
          = allow_list.any (fun t => pyIn t "zzz")) :=
  ⟨by decide,
    C6_provisioning_is_substring_match c6db [] "general" "zzz" 7 []
      (by decide)⟩

/-- Claim C6 counterexample: `malice` is not one of the placeholder
usernames, yet the endpoint auto-provisions it (because `alice` occurs
inside it as a substring) instead of closing with the policy-violation
code. -/
theorem C6_counterexample :
    ("malice" ∉ allow_list)
    ∧ get_user_by_username c6db "malice" = none
    ∧ (websocket_endpoint c6db [] "general" "malice" "malice" 7
        [.disc]).closeCode = none
    ∧ (get_user_by_username
          (websocket_endpoint c6db [] "general" "malice" "malice" 7
            [.disc]).db "malice").isSome = true := by
  refine ⟨by decide, by decide, by decide, by decide⟩

/-- Claim C9: `add_user_to_room` is idempotent — a second call for the
same (user, room) pair leaves the database unchanged and returns the
membership record of the first call, never inserting a duplicate row. -/
theorem C9_membership_idempotent (db : Db) (user_id room_id : Nat)
    (m1 m2 : Bool) :
    add_user_to_room (add_user_to_room db user_id room_id m1).1
        user_id room_id m2
      = add_user_to_room db user_id room_id m1 := by
  cases hf : db.memberships.find?
      (fun m => m.user_id == user_id && m.room_id == room_id) with
  | some m =>
    have h1 : add_user_to_room db user_id room_id m1 = (db, m) := by
      unfold add_user_to_room
      rw [hf]
    rw [h1]
    unfold add_user_to_room
    rw [hf]
  | none =>
    have h1 : add_user_to_room db user_id room_id m1
        = ({ db with
              memberships := db.memberships
                ++ [⟨db.nextMembershipId, user_id, room_id, m1⟩],
              nextMembershipId := db.nextMembershipId + 1 },
           ⟨db.nextMembershipId, user_id, room_id, m1⟩) := by
      unfold add_user_to_room
      rw [hf]
    rw [h1]
    unfold add_user_to_room
    rw [show ({ db with
          memberships := db.memberships
            ++ [⟨db.nextMembershipId, user_id, room_id, m1⟩],
          nextMembershipId := db.nextMembershipId + 1 } : Db).memberships
        = db.memberships ++ [⟨db.nextMembershipId, user_id, room_id, m1⟩]
      from rfl]
    rw [find?_append_none _ _ _ hf]
    simp [List.find?]

end ChatDemo
